import Mathlib

/-
Shallow embedding of the import-aware source merge engine of reactionable-cli
(class `TypescriptFile`, file `src/unnamed/part_000`), together with a model of
its collaborator class `TypescriptImport`, whose source is absent from the
repository snapshot and is therefore modelled from the specification (each such
definition carries a doc comment starting with `Modelled from the spec:`).
-/

namespace ReactionableCli

/-- Platform line terminator (`import \x7b EOL \x7d from 'os'`), modelled as "\n". -/
def EOL : String := "\n"

/-- A JS object used as a binding map `\x7b moduleName: importType \x7d`:
an insertion-ordered association list with (by construction) unique keys. -/
abbrev Modules := List (String × String)

/-- JS `key in obj` / presence of a property. -/
def hasKey (k : String) (m : Modules) : Bool := m.any (fun kv => kv.1 = k)

/-- JS property read `obj[k]`: the value at the first matching key. -/
def objGet (k : String) : Modules → Option String
  | [] => none
  | kv :: m => if kv.1 = k then some kv.2 else objGet k m

/-- JS property write `obj[k] = v`: overwrite in place when the key exists
(keys keep their insertion position), otherwise append the new key. -/
def Modules.setKey (m : Modules) (k v : String) : Modules :=
  if hasKey k m then m.map (fun kv => if kv.1 = k then (k, v) else kv)
  else m ++ [(k, v)]

/-- Modelled from the spec: `TypescriptImport.addModules` (class source absent
from src/). Spec §4.2: "the new bindings are merged key-by-key into its
existing binding map (overwriting on key collision)". -/
def Modules.mergeModules (base incoming : Modules) : Modules :=
  incoming.foldl (fun acc kv => Modules.setKey acc kv.1 kv.2) base

/-- Modelled from the spec: `TypescriptImport.removeModules` (class source
absent from src/). Spec §4.2: "each key present in the supplied bindings map
is deleted from its binding map, regardless of the value supplied". -/
def Modules.removeKeys (m sup : Modules) : Modules :=
  m.filter (fun kv => !(hasKey kv.1 sup))

/-- Modelled from the spec: sentinel `TypescriptImport.defaultImport`,
a distinguished string disjoint from identifier text (spec §3). -/
def defaultImport : String := "DEFAULT"

/-- Modelled from the spec: sentinel `TypescriptImport.globImport`,
a distinguished string disjoint from identifier text (spec §3). -/
def globImport : String := "GLOB"

/-- One import statement: `\x7b packageName, bindings \x7d` (spec §3);
`new TypescriptImport(packageName, modules)` in the source. -/
structure TypescriptImport where
  packageName : String
  modules : Modules
deriving DecidableEq, Repr

/-- Modelled from the spec: `TypescriptImport.toString` (class source absent
from src/). Spec §4.3: one rendering per binding-map entry, combined into a
single specifier clause; an empty binding map renders to the empty string;
the `DEFAULT`/`DEFAULT` entry renders as a bare side-effect import. -/
def TypescriptImport.toString (imp : TypescriptImport) : String :=
  if imp.modules.isEmpty then ""
  else
    let defaults := (imp.modules.filter
      (fun kv => kv.2 = defaultImport && !(kv.1 = defaultImport) && !(kv.1 = globImport))).map
      (fun kv => kv.1)
    let globs := (imp.modules.filter (fun kv => kv.1 = globImport)).map
      (fun kv => "* as " ++ kv.2)
    let named := (imp.modules.filter
      (fun kv => !(kv.1 = globImport) && !(kv.2 = defaultImport))).map
      (fun kv => if kv.2 = "" then kv.1 else kv.1 ++ " as " ++ kv.2)
    let namedClause :=
      if named.isEmpty then [] else ["\x7b " ++ String.intercalate ", " named ++ " \x7d"]
    let clauses := defaults ++ globs ++ namedClause
    if clauses.isEmpty then "import \"" ++ imp.packageName ++ "\";"
    else "import " ++ String.intercalate ", " clauses ++ " from \"" ++ imp.packageName ++ "\";"

/-- The test `/^\./.exec(packageName)` of `getContent`. -/
def isRelative (p : String) : Bool := p.startsWith "."

/-- Model of `String.prototype.localeCompare`: locale-aware collation is
modelled as lexicographic string order, returning -1/0/1. -/
def localeCompare (a b : String) : Int :=
  if a < b then -1 else if b < a then 1 else 0

/-- The comparator passed to `this.imports.sort` in `getContent`
(src/unnamed/part_000 lines 103-111), verbatim: a relative first argument
compares greater, then a relative second argument compares less, otherwise
`localeCompare` of the package names. -/
def importCompare (a b : TypescriptImport) : Int :=
  if isRelative a.packageName then 1
  else if isRelative b.packageName then -1
  else localeCompare a.packageName b.packageName

/-- Package-name comparison alone (the non-relative branch of the comparator). -/
def packageCompare (a b : TypescriptImport) : Int :=
  localeCompare a.packageName b.packageName

/-- Placement of one element into an already-placed prefix: before the first
element `y` with `cmp x y < 0`, after everything else. `Array.prototype.sort`
with an inconsistent comparator is engine-defined; Node's V8 TimSort places
each arriving element by binary search before the first prefix element that
compares greater, which for this comparator (whose greater-than tests are
monotone along the maintained prefix) coincides with this placement rule. -/
def insertJs (cmp : TypescriptImport → TypescriptImport → Int) (x : TypescriptImport) :
    List TypescriptImport → List TypescriptImport
  | [] => [x]
  | y :: ys => if cmp x y < 0 then x :: y :: ys else y :: insertJs cmp x ys

/-- `this.imports.sort(cmp)`: elements placed in arrival order by `insertJs`. -/
def jsSort (cmp : TypescriptImport → TypescriptImport → Int)
    (l : List TypescriptImport) : List TypescriptImport :=
  l.foldl (fun acc x => insertJs cmp x acc) []

/-- The mutable fields of `TypescriptFile` that the merge engine touches:
`imports?`, `declarations?`, `defaultDeclaration?` (each possibly undefined
before parsing). -/
structure TypescriptFileState where
  imports : Option (List TypescriptImport)
  declarations : Option (List String)
  defaultDeclaration : Option (Option String)
deriving DecidableEq, Repr

/-- Body of the outer loop of `addImports` for a single incoming item
(src/unnamed/part_000 lines 141-152): merge the item's modules into every
existing import with the same package name; if none matched, push the item. -/
def addImportItem (existing : List TypescriptImport) (item : TypescriptImport) :
    List TypescriptImport :=
  if existing.any (fun t => t.packageName = item.packageName) then
    existing.map (fun t =>
      if t.packageName = item.packageName then
        { t with modules := Modules.mergeModules t.modules item.modules }
      else t)
  else existing ++ [item]

/-- `TypescriptFile.addImports` (src/unnamed/part_000 lines 137-154). -/
def addImports (st : TypescriptFileState) (items : List TypescriptImport) :
    TypescriptFileState :=
  { st with imports := some (items.foldl addImportItem (st.imports.getD [])) }

/-- Body of the outer loop of `removeImports` for a single incoming item
(src/unnamed/part_000 lines 161-167): remove the item's module keys from every
existing import with the same package name. -/
def removeImportItem (existing : List TypescriptImport) (item : TypescriptImport) :
    List TypescriptImport :=
  existing.map (fun t =>
    if t.packageName = item.packageName then
      { t with modules := Modules.removeKeys t.modules item.modules }
    else t)

/-- `TypescriptFile.removeImports` (src/unnamed/part_000 lines 156-169). -/
def removeImports (st : TypescriptFileState) (items : List TypescriptImport) :
    TypescriptFileState :=
  { st with imports := some (items.foldl removeImportItem (st.imports.getD [])) }

/-- `TypescriptFile.setImports` (src/unnamed/part_000 lines 119-135): the
`new TypescriptImport(packageName, modules)` rebuild is the identity on the
modelled value type. -/
def setImports (st : TypescriptFileState)
    (importsToAdd importsToRemove : List TypescriptImport) : TypescriptFileState :=
  removeImports (addImports st importsToAdd) importsToRemove

/-- One import specifier as delivered by the external TypeScript parser. -/
inductive Specifier where
  | defaultSpec (localName : String)
  | namespaceSpec (localName : String)
  | namedSpec (importedName localName : String)
deriving DecidableEq, Repr

/-- The binding-map entry built for one specifier by `parseImportDeclaration`
(src/unnamed/part_000 lines 70-96): the object literal
`\x7b [moduleName]: importType \x7d`. -/
def specifierEntry : Specifier → String × String
  | .defaultSpec localName => (localName, defaultImport)
  | .namespaceSpec localName => (globImport, localName)
  | .namedSpec importedName localName =>
      (importedName, if localName = importedName then "" else localName)

/-- `TypescriptFile.parseImportDeclaration` (src/unnamed/part_000 lines 60-98). -/
def parseImportDeclaration (st : TypescriptFileState) (source : String)
    (specifiers : List Specifier) : TypescriptFileState :=
  if specifiers.isEmpty then
    addImports st [⟨source, [(defaultImport, defaultImport)]⟩]
  else
    specifiers.foldl (fun s sp => addImports s [⟨source, [specifierEntry sp]⟩]) st

/-- One top-level statement of the parsed body, with its character range. -/
inductive BodyItem where
  | importDecl (source : String) (specifiers : List Specifier) (range : Nat × Nat)
  | other (range : Nat × Nat)
deriving DecidableEq, Repr

/-- Whether `bodyItem.type` is `'ImportDeclaration'`. -/
def BodyItem.isImportDecl : BodyItem → Bool
  | .importDecl .. => true
  | .other _ => false

/-- `bodyItem.range`. -/
def BodyItem.range : BodyItem → Nat × Nat
  | .importDecl _ _ r => r
  | .other r => r

/-- JS `content.substr(start, len)`, by character position. -/
def jsSubstr (s : String) (start len : Nat) : String :=
  String.mk ((s.data.drop start).take len)

/-- The state set up at the top of `parseContent` (src/unnamed/part_000 lines
13-15): `imports = []`, `declarations = []`, `defaultDeclaration = null`. -/
def initialState : TypescriptFileState :=
  { imports := some [], declarations := some [], defaultDeclaration := some none }

/-- Body of the statement loop of `parseContent` (src/unnamed/part_000 lines
20-33): import declarations go through `parseImportDeclaration`; any other
statement pushes the exact substring of the content spanned by its range. -/
def parseStep (content : String) (st : TypescriptFileState) : BodyItem → TypescriptFileState
  | .importDecl src specs _ => parseImportDeclaration st src specs
  | .other r =>
      { st with
        declarations := some (st.declarations.getD [] ++ [jsSubstr content r.1 (r.2 - r.1)]) }

/-- The statement loop of `TypescriptFile.parseContent` run over an
already-parsed body. The `super.parseContent(content)` hook belongs to class
`StdFile`, absent from src/; modelled from the spec as the identity on the
content ("bodySpans preserve original top-level statement text ... exactly as
encountered", spec §3). -/
def parseBody (content : String) (body : List BodyItem) : TypescriptFileState :=
  body.foldl (parseStep content) initialState

/-- The diagnostic thrown by the external `parse` call: an optional 1-based
`lineNumber` property and its `JSON.stringify` serialization. -/
structure Diagnostic where
  lineNumber : Option Nat
  serialized : String
deriving DecidableEq, Repr

/-- Outcome of the guarded parse: success, the documented `ParseError`, or the
secondary `TypeError` raised by calling `.trim()` on `undefined`. -/
inductive ParseOutcome (α : Type) where
  | ok (value : α)
  | parseError (message : String)
  | secondaryError
deriving DecidableEq, Repr

/-- Worker for `jsSplit`: scan the characters, cutting at each separator. -/
def splitCharsAux (sep : Char) : List Char → List Char → List String
  | [], acc => [String.mk acc.reverse]
  | c :: cs, acc =>
      if c = sep then String.mk acc.reverse :: splitCharsAux sep cs []
      else splitCharsAux sep cs (c :: acc)

/-- JS `content.split('\n')` (a one-character separator): `"".split` gives
`[""]` and a trailing separator yields a trailing empty piece. -/
def jsSplit (sep : Char) (s : String) : List String :=
  splitCharsAux sep s.data []

/-- The template literal of the `throw` in `parseTypescriptContent`
(src/unnamed/part_000 lines 52-56). -/
def parseErrorMessage (file serialized line : String) : String :=
  "An error occurred while parsing file content \"" ++ file ++ "\": " ++
    serialized ++ " => \"" ++ line.trim ++ "\""

/-- `TypescriptFile.parseTypescriptContent` (src/unnamed/part_000 lines
38-58), with the external parser's verdict supplied as an argument. On
failure: if `error.lineNumber` is truthy (present and nonzero), the content is
split on "\n" and indexed at `lineNumber - 1`; an out-of-range index yields
`undefined`, whose `.trim()` raises the secondary error. -/
def parseTypescriptContent (file content : String)
    (result : Except Diagnostic (List BodyItem)) : ParseOutcome (List BodyItem) :=
  match result with
  | .ok body => .ok body
  | .error err =>
    match err.lineNumber with
    | some n =>
        if n = 0 then .parseError (parseErrorMessage file err.serialized content)
        else
          match (jsSplit '\n' content).get? (n - 1) with
          | some line => .parseError (parseErrorMessage file err.serialized line)
          | none => .secondaryError
    | none => .parseError (parseErrorMessage file err.serialized content)

/-- The import-line pipeline of `getContent` (src/unnamed/part_000 lines
101-115): when `this.imports` is set, sort with the comparator, render each
statement, and keep only the non-empty renderings (`!!line.length`). -/
def importLines (imports : Option (List TypescriptImport)) : List String :=
  match imports with
  | some imps =>
      ((jsSort importCompare imps).map TypescriptImport.toString).filter
        (fun line => line.length != 0)
  | none => []

/-- `TypescriptFile.getContent` (src/unnamed/part_000 lines 100-117):
`[...importLines, '', ...(this.declarations || [])].join(EOL)`. -/
def getContent (st : TypescriptFileState) : String :=
  String.intercalate EOL (importLines st.imports ++ [""] ++ st.declarations.getD [])

/-- One externally requested registry mutation. -/
inductive RegistryOp where
  | add (items : List TypescriptImport)
  | remove (items : List TypescriptImport)
deriving Repr

/-- Apply one registry mutation. -/
def applyOp (st : TypescriptFileState) : RegistryOp → TypescriptFileState
  | .add items => addImports st items
  | .remove items => removeImports st items

/-- Apply a sequence of registry mutations in order. -/
def applyOps (st : TypescriptFileState) (ops : List RegistryOp) : TypescriptFileState :=
  ops.foldl applyOp st

/-- The package names of a list of import statements. -/
def importNames (l : List TypescriptImport) : List String :=
  l.map (fun t => t.packageName)

/-! ### Binding-map lemmas -/

theorem hasKey_eq_true_iff (k : String) (m : Modules) :
    hasKey k m = true ↔ ∃ kv ∈ m, kv.1 = k := by
  simp [hasKey, List.any_eq_true]

theorem objGet_map_overwrite (k v : String) (m : Modules) (h : hasKey k m = true) :
    objGet k (m.map (fun kv => if kv.1 = k then (k, v) else kv)) = some v := by
  induction m with
  | nil => simp [hasKey] at h
  | cons kv m ih =>
    by_cases hk : kv.1 = k
    · simp [objGet, hk]
    · have h' : hasKey k m = true := by
        rcases (hasKey_eq_true_iff _ _).mp h with ⟨x, hx, hxe⟩
        rcases List.mem_cons.mp hx with rfl | hx2
        · exact absurd hxe hk
        · exact (hasKey_eq_true_iff _ _).mpr ⟨x, hx2, hxe⟩
      simp [objGet, hk, ih h']

theorem objGet_append_absent (k v : String) (m : Modules) (h : hasKey k m = false) :
    objGet k (m ++ [(k, v)]) = some v := by
  induction m with
  | nil => simp [objGet]
  | cons kv m ih =>
    have hk : ¬ (kv.1 = k) := by
      intro he
      have : hasKey k (kv :: m) = true := (hasKey_eq_true_iff _ _).mpr ⟨kv, by simp, he⟩
      rw [h] at this; exact Bool.false_ne_true this
    have h' : hasKey k m = false := by
      cases hc : hasKey k m with
      | false => rfl
      | true =>
        rcases (hasKey_eq_true_iff _ _).mp hc with ⟨x, hx, hxe⟩
        have : hasKey k (kv :: m) = true := (hasKey_eq_true_iff _ _).mpr ⟨x, by simp [hx], hxe⟩
        rw [h] at this; exact absurd this (by simp)
    simp [objGet, hk, ih h']

theorem objGet_setKey (m : Modules) (k v : String) :
    objGet k (Modules.setKey m k v) = some v := by
  unfold Modules.setKey
  by_cases h : hasKey k m = true
  · simp only [h, if_true]
    exact objGet_map_overwrite k v m h
  · have h' : hasKey k m = false := by simpa using h
    simp only [h', Bool.false_eq_true, if_false]
    exact objGet_append_absent k v m h'

theorem mergeModules_single (m : Modules) (k v : String) :
    Modules.mergeModules m [(k, v)] = Modules.setKey m k v := rfl

theorem objGet_removeKeys (m sup : Modules) (k : String) :
    objGet k (Modules.removeKeys m sup)
      = if hasKey k sup = true then none else objGet k m := by
  induction m with
  | nil =>
    simp only [Modules.removeKeys, List.filter_nil, objGet]
    cases h : hasKey k sup <;> simp
  | cons kv m ih =>
    simp only [Modules.removeKeys, List.filter_cons] at *
    by_cases hk : kv.1 = k
    · cases h2 : hasKey kv.1 sup with
      | true =>
        have hks : hasKey k sup = true := hk ▸ h2
        simp only [h2, Bool.not_true, Bool.false_eq_true, if_false, ih, hks, if_true]
      | false =>
        have hks : hasKey k sup = false := hk ▸ h2
        simp [h2, objGet, hk, hks]
    · cases h2 : hasKey kv.1 sup with
      | true => simp [h2, ih, objGet, hk]
      | false => simp [h2, ih, objGet, hk]

theorem hasKey_map_fst (k : String) (s : Modules) :
    hasKey k s = (s.map Prod.fst).any (fun x => x = k) := by
  induction s with
  | nil => rfl
  | cons kv s ih =>
    simp only [hasKey, List.any_cons, List.map_cons] at ih ⊢
    rw [ih]

theorem removeKeys_keyed (m sup sup' : Modules) (h : sup.map Prod.fst = sup'.map Prod.fst) :
    Modules.removeKeys m sup = Modules.removeKeys m sup' := by
  have hk : ∀ k, hasKey k sup = hasKey k sup' := by
    intro k
    rw [hasKey_map_fst, hasKey_map_fst, h]
  unfold Modules.removeKeys
  exact List.filter_congr (fun kv _ => by rw [show hasKey kv.1 sup = hasKey kv.1 sup' from hk kv.1])

theorem removeKeys_disjoint (m sup : Modules) (h : ∀ s ∈ sup, hasKey s.1 m = false) :
    Modules.removeKeys m sup = m := by
  unfold Modules.removeKeys
  apply List.filter_eq_self.mpr
  intro kv hkv
  cases hcase : hasKey kv.1 sup with
  | false => simp [hcase]
  | true =>
    exfalso
    rcases (hasKey_eq_true_iff _ _).mp hcase with ⟨s, hs, hseq⟩
    have hm : hasKey s.1 m = true := (hasKey_eq_true_iff _ _).mpr ⟨kv, hkv, hseq.symm⟩
    rw [h s hs] at hm
    exact Bool.false_ne_true hm

theorem removeImports_absent (st : TypescriptFileState) (l : List TypescriptImport)
    (item : TypescriptImport) (hst : st.imports = some l)
    (h : ∀ i ∈ l, i.packageName ≠ item.packageName) :
    removeImports st [item] = st := by
  unfold removeImports removeImportItem
  rw [hst]
  simp only [Option.getD_some, List.foldl_cons, List.foldl_nil]
  have hmap : (l.map fun t =>
      if t.packageName = item.packageName then
        { t with modules := Modules.removeKeys t.modules item.modules }
      else t) = l := by
    conv_rhs => rw [← List.map_id l]
    apply List.map_congr_left
    intro t ht
    simp [h t ht]
  rw [hmap]
  cases st with
  | mk imp dec dd =>
    have himp : imp = some l := hst
    subst himp
    rfl

/-! ### Claim C3 -/

/-- C3: parsing decomposes every import declaration into binding-map entries
exactly per the five encoding rules: zero specifiers yield DEFAULT/DEFAULT;
a default specifier with local name Foo yields Foo/DEFAULT; a namespace
specifier `* as Foo` yields GLOB/Foo; a named specifier `\x7b Bar \x7d` yields
Bar/""; a named specifier `\x7b Bar as Baz \x7d` (a genuine alias) yields
Bar/Baz; and a declaration with specifiers issues one add per specifier. -/
theorem c3_specifier_encoding (st : TypescriptFileState) (source foo bar baz : String) :
    parseImportDeclaration st source []
        = addImports st [⟨source, [(defaultImport, defaultImport)]⟩]
    ∧ specifierEntry (.defaultSpec foo) = (foo, defaultImport)
    ∧ specifierEntry (.namespaceSpec foo) = (globImport, foo)
    ∧ specifierEntry (.namedSpec bar bar) = (bar, "")
    ∧ (baz ≠ bar → specifierEntry (.namedSpec bar baz) = (bar, baz))
    ∧ (∀ specs : List Specifier, specs ≠ [] →
        parseImportDeclaration st source specs
          = specs.foldl (fun s sp => addImports s [⟨source, [specifierEntry sp]⟩]) st) := by
  refine ⟨by simp [parseImportDeclaration], rfl, rfl, by simp [specifierEntry], ?_, ?_⟩
  · intro h
    simp [specifierEntry, h]
  · intro specs h
    cases specs with
    | nil => exact absurd rfl h
    | cons sp specs => simp [parseImportDeclaration]

/-- Witness for C3 at concrete inputs. -/
theorem c3_specifier_encoding_witness :
    specifierEntry (.namedSpec "Bar" "Baz") = ("Bar", "Baz")
    ∧ parseImportDeclaration initialState "pkg" [Specifier.defaultSpec "Foo"]
        = [Specifier.defaultSpec "Foo"].foldl
            (fun s sp => addImports s [⟨"pkg", [specifierEntry sp]⟩]) initialState := by
  have h := c3_specifier_encoding initialState "pkg" "Foo" "Bar" "Baz"
  exact ⟨h.2.2.2.2.1 (by decide), h.2.2.2.2.2 [Specifier.defaultSpec "Foo"] (by decide)⟩

/-! ### Claim C4 -/

/-- C4: remove-bindings deletes from the binding map exactly the keys present
in the supplied bindings, regardless of the supplied values; removing an
absent key is a no-op; and removing bindings for a package with no
ImportStatement leaves the document unchanged and raises no error. -/
theorem c4_removal_keyed (m sup sup' : Modules) (k : String)
    (st : TypescriptFileState) (l : List TypescriptImport) (item : TypescriptImport) :
    (objGet k (Modules.removeKeys m sup)
        = if hasKey k sup = true then none else objGet k m)
    ∧ (sup.map Prod.fst = sup'.map Prod.fst →
        Modules.removeKeys m sup = Modules.removeKeys m sup')
    ∧ ((∀ s ∈ sup, hasKey s.1 m = false) → Modules.removeKeys m sup = m)
    ∧ (st.imports = some l → (∀ i ∈ l, i.packageName ≠ item.packageName) →
        removeImports st [item] = st) := by
  exact ⟨objGet_removeKeys m sup k,
    fun h => removeKeys_keyed m sup sup' h,
    fun h => removeKeys_disjoint m sup h,
    fun h1 h2 => removeImports_absent st l item h1 h2⟩

/-- Witness for C4 at concrete inputs. -/
theorem c4_removal_keyed_witness :
    objGet "a" (Modules.removeKeys [("a", "1"), ("b", "2")] [("a", "ZZZ")])
        = (if hasKey "a" [("a", "ZZZ")] = true then none
           else objGet "a" [("a", "1"), ("b", "2")])
    ∧ Modules.removeKeys [("a", "1")] [("b", "2")]
        = Modules.removeKeys [("a", "1")] [("b", "XXX")]
    ∧ Modules.removeKeys [("a", "1")] [("b", "2")] = [("a", "1")]
    ∧ removeImports ⟨some [⟨"p", [("a", "1")]⟩], some [], some none⟩ [⟨"q", [("x", "y")]⟩]
        = ⟨some [⟨"p", [("a", "1")]⟩], some [], some none⟩ := by
  have h := c4_removal_keyed [("a", "1"), ("b", "2")] [("a", "ZZZ")] [("a", "XXX")] "a"
    ⟨some [⟨"p", [("a", "1")]⟩], some [], some none⟩ [⟨"p", [("a", "1")]⟩] ⟨"q", [("x", "y")]⟩
  have h2 := c4_removal_keyed [("a", "1")] [("b", "2")] [("b", "XXX")] "a"
    ⟨some [⟨"p", [("a", "1")]⟩], some [], some none⟩ [⟨"p", [("a", "1")]⟩] ⟨"q", [("x", "y")]⟩
  exact ⟨h.1, h2.2.1 (by decide), h2.2.2.1 (by decide), h.2.2.2 rfl (by decide)⟩

/-! ### Claim C5 -/

theorem find?_map_merge (pk : String) (g : Modules → Modules) (l : List TypescriptImport)
    (imp : TypescriptImport)
    (h : l.find? (fun t => t.packageName = pk) = some imp) :
    (l.map (fun t =>
        if t.packageName = pk then { t with modules := g t.modules } else t)).find?
        (fun t => t.packageName = pk)
      = some { imp with modules := g imp.modules } := by
  induction l with
  | nil => simp at h
  | cons a l ih =>
    by_cases ha : a.packageName = pk
    · rw [List.find?_cons_of_pos _ (by simpa using ha)] at h
      injection h with h
      subst h
      simp only [List.map_cons, if_pos ha]
      rw [List.find?_cons_of_pos _ (by simpa using ha)]
    · rw [List.find?_cons_of_neg _ (by simpa using ha)] at h
      simp only [List.map_cons, if_neg ha]
      rw [List.find?_cons_of_neg _ (by simpa using ha)]
      exact ih h

theorem addImports_existing (st : TypescriptFileState) (l : List TypescriptImport)
    (p k v2 : String) (imp : TypescriptImport)
    (hst : st.imports = some l)
    (hfind : l.find? (fun t => t.packageName = p) = some imp) :
    ((addImports st [⟨p, [(k, v2)]⟩]).imports.getD []).find? (fun t => t.packageName = p)
      = some { imp with modules := Modules.setKey imp.modules k v2 } := by
  unfold addImports addImportItem
  rw [hst]
  simp only [Option.getD_some, List.foldl_cons, List.foldl_nil]
  have hmem := List.mem_of_find?_eq_some hfind
  have hpk : imp.packageName = p := by
    have := List.find?_some hfind
    simpa using this
  have hany : (l.any fun t =>
      t.packageName = (⟨p, [(k, v2)]⟩ : TypescriptImport).packageName) = true := by
    simp only [List.any_eq_true]
    exact ⟨imp, hmem, by simpa using hpk⟩
  rw [if_pos hany]
  rw [← mergeModules_single imp.modules k v2]
  exact find?_map_merge p (fun m => Modules.mergeModules m [(k, v2)]) l imp hfind

theorem addImports_new (st : TypescriptFileState) (l : List TypescriptImport)
    (p : String) (sup : Modules)
    (hst : st.imports = some l)
    (h : ∀ i ∈ l, i.packageName ≠ p) :
    (addImports st [⟨p, sup⟩]).imports = some (l ++ [⟨p, sup⟩]) := by
  unfold addImports addImportItem
  rw [hst]
  simp only [Option.getD_some, List.foldl_cons, List.foldl_nil]
  have hany : (l.any fun t =>
      t.packageName = (⟨p, sup⟩ : TypescriptImport).packageName) = false := by
    cases hc : (l.any fun t =>
        t.packageName = (⟨p, sup⟩ : TypescriptImport).packageName) with
    | false => rfl
    | true =>
      exfalso
      rcases List.any_eq_true.mp hc with ⟨t, ht, hte⟩
      exact h t ht (by simpa using hte)
  rw [if_neg (by simp [hany])]

/-- C5: for a package whose binding map already contains key k with value v1,
add-bindings with k ↦ v2 leaves the binding map containing k ↦ v2 (last write
wins); if no ImportStatement for the packageName exists, add-bindings creates
one with exactly the supplied bindings. -/
theorem c5_merge_precedence (st : TypescriptFileState) (l : List TypescriptImport)
    (p k v1 v2 : String) (sup : Modules) (imp : TypescriptImport) :
    (st.imports = some l → l.find? (fun t => t.packageName = p) = some imp →
      objGet k imp.modules = some v1 →
      ((addImports st [⟨p, [(k, v2)]⟩]).imports.getD []).find? (fun t => t.packageName = p)
          = some { imp with modules := Modules.setKey imp.modules k v2 }
        ∧ objGet k (Modules.setKey imp.modules k v2) = some v2)
    ∧ (st.imports = some l → (∀ i ∈ l, i.packageName ≠ p) →
        (addImports st [⟨p, sup⟩]).imports = some (l ++ [⟨p, sup⟩])) := by
  constructor
  · intro hst hfind _
    exact ⟨addImports_existing st l p k v2 imp hst hfind, objGet_setKey imp.modules k v2⟩
  · intro hst h
    exact addImports_new st l p sup hst h

/-- Witness for C5 at concrete inputs. -/
theorem c5_merge_precedence_witness :
    (((addImports ⟨some [⟨"react", [("React", "DEFAULT")]⟩], some [], some none⟩
          [⟨"react", [("React", "NEW")]⟩]).imports.getD []).find?
        (fun t => t.packageName = "react")
      = some ⟨"react", Modules.setKey [("React", "DEFAULT")] "React" "NEW"⟩
      ∧ objGet "React" (Modules.setKey [("React", "DEFAULT")] "React" "NEW") = some "NEW")
    ∧ (addImports ⟨some [⟨"react", [("React", "DEFAULT")]⟩], some [], some none⟩
          [⟨"lodash", [("map", "")]⟩]).imports
        = some ([⟨"react", [("React", "DEFAULT")]⟩] ++ [⟨"lodash", [("map", "")]⟩]) := by
  have h1 := c5_merge_precedence ⟨some [⟨"react", [("React", "DEFAULT")]⟩], some [], some none⟩
    [⟨"react", [("React", "DEFAULT")]⟩] "react" "React" "DEFAULT" "NEW" [("React", "NEW")]
    ⟨"react", [("React", "DEFAULT")]⟩
  have h2 := c5_merge_precedence ⟨some [⟨"react", [("React", "DEFAULT")]⟩], some [], some none⟩
    [⟨"react", [("React", "DEFAULT")]⟩] "lodash" "React" "DEFAULT" "NEW" [("map", "")]
    ⟨"react", [("React", "DEFAULT")]⟩
  exact ⟨h1.1 rfl (by decide) (by decide), h2.2 rfl (by decide)⟩

/-! ### Sorting lemmas -/

theorem importCompare_of_rel (a b : TypescriptImport)
    (h : isRelative a.packageName = true) : importCompare a b = 1 := by
  simp [importCompare, h]

theorem importCompare_nonrel_rel (a b : TypescriptImport)
    (h1 : isRelative a.packageName = false) (h2 : isRelative b.packageName = true) :
    importCompare a b = -1 := by
  simp [importCompare, h1, h2]

theorem importCompare_nonrel_nonrel (a b : TypescriptImport)
    (h1 : isRelative a.packageName = false) (h2 : isRelative b.packageName = false) :
    importCompare a b = packageCompare a b := by
  simp [importCompare, packageCompare, h1, h2]

theorem insertJs_of_forall_not_lt (cmp : TypescriptImport → TypescriptImport → Int)
    (x : TypescriptImport) (m : List TypescriptImport)
    (h : ∀ y ∈ m, ¬ cmp x y < 0) : insertJs cmp x m = m ++ [x] := by
  induction m with
  | nil => rfl
  | cons y ys ih =>
    simp only [insertJs]
    rw [if_neg (h y (by simp))]
    rw [ih (fun z hz => h z (by simp [hz]))]
    rfl

theorem insertJs_append_split (x : TypescriptImport) (S R : List TypescriptImport)
    (hS : ∀ y ∈ S, importCompare x y = packageCompare x y)
    (hR : ∀ y ∈ R, importCompare x y < 0) :
    insertJs importCompare x (S ++ R) = insertJs packageCompare x S ++ R := by
  induction S with
  | nil =>
    cases R with
    | nil => rfl
    | cons r rs =>
      simp only [List.nil_append, insertJs]
      rw [if_pos (hR r (by simp))]
      rfl
  | cons s S ih =>
    show insertJs importCompare x (s :: (S ++ R)) = insertJs packageCompare x (s :: S) ++ R
    simp only [insertJs]
    rw [hS s (List.mem_cons_self s S)]
    by_cases hcond : packageCompare x s < 0
    · rw [if_pos hcond, if_pos hcond]
      rfl
    · rw [if_neg hcond, if_neg hcond]
      rw [ih (fun y hy => hS y (List.mem_cons_of_mem s hy))]
      rfl

theorem insertJs_perm (cmp : TypescriptImport → TypescriptImport → Int)
    (x : TypescriptImport) (l : List TypescriptImport) :
    List.Perm (insertJs cmp x l) (x :: l) := by
  induction l with
  | nil => exact List.Perm.refl _
  | cons y ys ih =>
    simp only [insertJs]
    by_cases h : cmp x y < 0
    · rw [if_pos h]
    · rw [if_neg h]
      exact List.Perm.trans (List.Perm.cons y ih) (List.Perm.swap x y ys)

theorem foldl_insertJs_perm (cmp : TypescriptImport → TypescriptImport → Int)
    (l acc : List TypescriptImport) :
    List.Perm (l.foldl (fun a x => insertJs cmp x a) acc) (acc ++ l) := by
  induction l generalizing acc with
  | nil => simp
  | cons x l ih =>
    simp only [List.foldl_cons]
    refine List.Perm.trans (ih _) ?_
    refine List.Perm.trans (List.Perm.append_right l (insertJs_perm cmp x acc)) ?_
    exact List.perm_middle.symm

theorem jsSort_perm (cmp : TypescriptImport → TypescriptImport → Int)
    (l : List TypescriptImport) : List.Perm (jsSort cmp l) l := by
  have h := foldl_insertJs_perm cmp l []
  simpa [jsSort] using h

theorem jsSort_split_loop (l : List TypescriptImport) : ∀ S R : List TypescriptImport,
    (∀ i ∈ S, isRelative i.packageName = false) →
    (∀ i ∈ R, isRelative i.packageName = true) →
    l.foldl (fun acc x => insertJs importCompare x acc) (S ++ R)
      = (l.filter (fun i => !isRelative i.packageName)).foldl
          (fun acc x => insertJs packageCompare x acc) S
        ++ R ++ l.filter (fun i => isRelative i.packageName) := by
  induction l with
  | nil =>
    intro S R _ _
    simp
  | cons a l ih =>
    intro S R hS hR
    simp only [List.foldl_cons]
    cases hrel : isRelative a.packageName with
    | true =>
      have hins : insertJs importCompare a (S ++ R) = (S ++ R) ++ [a] :=
        insertJs_of_forall_not_lt _ _ _ (fun y _ => by
          rw [importCompare_of_rel a y hrel]
          decide)
      rw [hins, List.append_assoc]
      rw [ih S (R ++ [a]) hS (fun i hi => by
        rcases List.mem_append.mp hi with hi | hi
        · exact hR i hi
        · simp only [List.mem_singleton] at hi
          subst hi
          exact hrel)]
      rw [List.filter_cons_of_neg (by simp [hrel]), List.filter_cons_of_pos (by simp [hrel])]
      simp [List.append_assoc]
    | false =>
      have hins : insertJs importCompare a (S ++ R) = insertJs packageCompare a S ++ R :=
        insertJs_append_split a S R
          (fun y hy => importCompare_nonrel_nonrel a y hrel (hS y hy))
          (fun y hy => by
            rw [importCompare_nonrel_rel a y hrel (hR y hy)]
            decide)
      rw [hins]
      rw [ih (insertJs packageCompare a S) R (fun i hi => by
        rcases List.mem_cons.mp ((insertJs_perm packageCompare a S).mem_iff.mp hi)
          with rfl | hi2
        · exact hrel
        · exact hS i hi2) hR]
      rw [List.filter_cons_of_pos (by simp [hrel]), List.filter_cons_of_neg (by simp [hrel])]
      simp only [List.foldl_cons]

theorem lc_lt_iff (a b : String) : localeCompare a b < 0 ↔ a < b := by
  unfold localeCompare
  split_ifs with h1 h2
  · exact iff_of_true (by norm_num) h1
  · exact iff_of_false (by norm_num) h1
  · exact iff_of_false (by norm_num) h1

theorem lc_le_iff (a b : String) : localeCompare a b ≤ 0 ↔ a ≤ b := by
  unfold localeCompare
  split_ifs with h1 h2
  · exact iff_of_true (by norm_num) (le_of_lt h1)
  · exact iff_of_false (by norm_num) (not_le.mpr h2)
  · exact iff_of_true (le_refl 0) (le_of_not_lt h2)

theorem pc_lt_iff (a b : TypescriptImport) :
    packageCompare a b < 0 ↔ a.packageName < b.packageName := lc_lt_iff _ _

theorem pc_le_iff (a b : TypescriptImport) :
    packageCompare a b ≤ 0 ↔ a.packageName ≤ b.packageName := lc_le_iff _ _

theorem pairwise_insertJs (x : TypescriptImport) (m : List TypescriptImport)
    (hm : m.Pairwise (fun a b => packageCompare a b ≤ 0)) :
    (insertJs packageCompare x m).Pairwise (fun a b => packageCompare a b ≤ 0) := by
  induction m with
  | nil => simp [insertJs]
  | cons y ys ih =>
    rcases List.pairwise_cons.mp hm with ⟨hy, hys⟩
    simp only [insertJs]
    by_cases h : packageCompare x y < 0
    · rw [if_pos h]
      refine List.pairwise_cons.mpr ⟨?_, hm⟩
      intro z hz
      rcases List.mem_cons.mp hz with rfl | hz2
      · exact le_of_lt h
      · have h1 : x.packageName < y.packageName := (pc_lt_iff _ _).mp h
        have h2 : y.packageName ≤ z.packageName := (pc_le_iff _ _).mp (hy z hz2)
        exact (pc_le_iff _ _).mpr (le_of_lt (lt_of_lt_of_le h1 h2))
    · rw [if_neg h]
      refine List.pairwise_cons.mpr ⟨?_, ih hys⟩
      intro z hz
      rcases List.mem_cons.mp ((insertJs_perm _ x ys).mem_iff.mp hz) with hzx | hz2
      · rw [hzx]
        have hnlt : ¬ x.packageName < y.packageName := fun hc => h ((pc_lt_iff _ _).mpr hc)
        exact (pc_le_iff _ _).mpr (le_of_not_lt hnlt)
      · exact hy z hz2

theorem pairwise_jsSort_pc (l : List TypescriptImport) :
    (jsSort packageCompare l).Pairwise (fun a b => packageCompare a b ≤ 0) := by
  suffices h : ∀ (l acc : List TypescriptImport),
      acc.Pairwise (fun a b => packageCompare a b ≤ 0) →
      (l.foldl (fun a x => insertJs packageCompare x a) acc).Pairwise
        (fun a b => packageCompare a b ≤ 0) by
    exact h l [] (by simp)
  intro l
  induction l with
  | nil =>
    intro acc h
    simpa using h
  | cons x l ih =>
    intro acc h
    simp only [List.foldl_cons]
    exact ih _ (pairwise_insertJs x acc h)

/-! ### Claim C2 -/

/-- C2: serialization orders import statements so that every relative
statement (packageName starting with ".") comes after every non-relative
statement; the non-relative statements are sorted among themselves by the
(modelled) locale-aware package-name comparison; and relative statements keep
their arrival order relative to each other (they appear exactly as the
original filter of the input list). -/
theorem c2_sort_order (l : List TypescriptImport) :
    jsSort importCompare l
      = jsSort packageCompare (l.filter (fun i => !isRelative i.packageName))
        ++ l.filter (fun i => isRelative i.packageName)
    ∧ importLines (some l)
      = ((jsSort packageCompare (l.filter (fun i => !isRelative i.packageName))
            ++ l.filter (fun i => isRelative i.packageName)).map
            TypescriptImport.toString).filter (fun line => line.length != 0)
    ∧ (jsSort packageCompare (l.filter (fun i => !isRelative i.packageName))).Pairwise
        (fun a b => packageCompare a b ≤ 0) := by
  have hmain : jsSort importCompare l
      = jsSort packageCompare (l.filter (fun i => !isRelative i.packageName))
        ++ l.filter (fun i => isRelative i.packageName) := by
    have h := jsSort_split_loop l [] [] (by simp) (by simp)
    simpa [jsSort] using h
  refine ⟨hmain, ?_, pairwise_jsSort_pc _⟩
  simp only [importLines, hmain]

/-! ### Claim C6 -/

/-- C6: an ImportStatement whose binding map is empty renders to the empty
string, empty renderings never appear among the serialized import lines, and
the number of serialized import lines equals the number of statements with a
non-empty rendering, so an empty-rendering statement contributes no line and
no blank line. -/
theorem c6_empty_suppression (p : String) (o : Option (List TypescriptImport))
    (imps : List TypescriptImport) :
    TypescriptImport.toString ⟨p, []⟩ = ""
    ∧ "" ∉ importLines o
    ∧ (importLines (some imps)).length
        = imps.countP (fun i => i.toString.length != 0) := by
  refine ⟨rfl, ?_, ?_⟩
  · cases o with
    | none => simp [importLines]
    | some imps' =>
      intro hmem
      simp only [importLines] at hmem
      have hpred := List.of_mem_filter hmem
      simp at hpred
  · simp only [importLines]
    rw [← List.countP_eq_length_filter, List.countP_map]
    rw [(jsSort_perm importCompare imps).countP_eq
      ((fun line => line.length != 0) ∘ TypescriptImport.toString)]
    rfl

/-! ### Claim C7 -/

/-- C7: serialize produces the rendered non-empty sorted import lines, then
exactly one blank entry, then the body spans in their recorded order, all
joined with the platform line terminator; with zero non-empty import lines
the single blank entry still leads the join. -/
theorem c7_final_assembly (st : TypescriptFileState) (l : List TypescriptImport)
    (h : st.imports = some l) :
    getContent st
      = String.intercalate EOL
          ((((jsSort importCompare l).map TypescriptImport.toString).filter
              (fun line => line.length != 0)) ++ [""] ++ st.declarations.getD [])
    ∧ (importLines st.imports = [] →
        getContent st = String.intercalate EOL ("" :: st.declarations.getD [])) := by
  constructor
  · unfold getContent importLines
    rw [h]
  · intro h0
    unfold getContent
    rw [h0]
    rfl

/-- Witness for C7 at concrete inputs. -/
theorem c7_final_assembly_witness :
    getContent ⟨some [], some ["const x = 1;"], some none⟩
      = String.intercalate EOL
          ((((jsSort importCompare []).map TypescriptImport.toString).filter
              (fun line => line.length != 0)) ++ [""] ++ ["const x = 1;"])
    ∧ getContent ⟨some [], some ["const x = 1;"], some none⟩
        = String.intercalate EOL ("" :: ["const x = 1;"]) := by
  have h := c7_final_assembly ⟨some [], some ["const x = 1;"], some none⟩ [] rfl
  exact ⟨h.1, h.2 rfl⟩

/-! ### Claim C1 -/

theorem importNames_map_preserve (l : List TypescriptImport)
    (f : TypescriptImport → TypescriptImport)
    (hf : ∀ t, (f t).packageName = t.packageName) :
    importNames (l.map f) = importNames l := by
  unfold importNames
  rw [List.map_map]
  exact List.map_congr_left (fun t _ => hf t)

theorem importNames_addImportItem (ex : List TypescriptImport) (item : TypescriptImport)
    (h : (importNames ex).Nodup) :
    (importNames (addImportItem ex item)).Nodup := by
  unfold addImportItem
  by_cases hc : (ex.any fun t => t.packageName = item.packageName) = true
  · rw [if_pos hc]
    rw [importNames_map_preserve]
    · exact h
    · intro t
      by_cases ht : t.packageName = item.packageName <;> simp [ht]
  · rw [if_neg hc]
    unfold importNames
    rw [List.map_append]
    rw [List.nodup_append]
    refine ⟨h, List.nodup_singleton _, ?_⟩
    intro x hx hx2
    simp only [List.map_cons, List.map_nil, List.mem_singleton] at hx2
    subst hx2
    rcases List.mem_map.mp hx with ⟨t, ht, hte⟩
    apply hc
    simp only [List.any_eq_true, decide_eq_true_eq]
    exact ⟨t, ht, hte⟩

theorem nodup_foldl_addImportItem (items : List TypescriptImport) :
    ∀ ex : List TypescriptImport, (importNames ex).Nodup →
    (importNames (items.foldl addImportItem ex)).Nodup := by
  induction items with
  | nil =>
    intro ex h
    simpa using h
  | cons item items ih =>
    intro ex h
    simp only [List.foldl_cons]
    exact ih _ (importNames_addImportItem ex item h)

theorem nodup_addImports (st : TypescriptFileState) (items : List TypescriptImport)
    (h : (importNames (st.imports.getD [])).Nodup) :
    (importNames ((addImports st items).imports.getD [])).Nodup := by
  unfold addImports
  simp only [Option.getD_some]
  exact nodup_foldl_addImportItem items _ h

theorem importNames_removeImportItem (ex : List TypescriptImport) (item : TypescriptImport) :
    importNames (removeImportItem ex item) = importNames ex := by
  unfold removeImportItem
  apply importNames_map_preserve
  intro t
  by_cases ht : t.packageName = item.packageName <;> simp [ht]

theorem importNames_foldl_removeImportItem (items : List TypescriptImport) :
    ∀ ex : List TypescriptImport,
    importNames (items.foldl removeImportItem ex) = importNames ex := by
  induction items with
  | nil => intro ex; rfl
  | cons item items ih =>
    intro ex
    simp only [List.foldl_cons]
    rw [ih, importNames_removeImportItem]

theorem nodup_removeImports (st : TypescriptFileState) (items : List TypescriptImport)
    (h : (importNames (st.imports.getD [])).Nodup) :
    (importNames ((removeImports st items).imports.getD [])).Nodup := by
  unfold removeImports
  simp only [Option.getD_some]
  rw [importNames_foldl_removeImportItem]
  exact h

theorem nodup_foldl_addImports (specs : List Specifier) (source : String) :
    ∀ st : TypescriptFileState, (importNames (st.imports.getD [])).Nodup →
    (importNames ((specs.foldl
        (fun s sp => addImports s [⟨source, [specifierEntry sp]⟩]) st).imports.getD [])).Nodup := by
  induction specs with
  | nil =>
    intro st h
    simpa using h
  | cons sp specs ih =>
    intro st h
    simp only [List.foldl_cons]
    exact ih _ (nodup_addImports _ _ h)

theorem nodup_parseImportDeclaration (st : TypescriptFileState) (source : String)
    (specs : List Specifier) (h : (importNames (st.imports.getD [])).Nodup) :
    (importNames ((parseImportDeclaration st source specs).imports.getD [])).Nodup := by
  unfold parseImportDeclaration
  by_cases hspec : specs.isEmpty = true
  · rw [if_pos hspec]
    exact nodup_addImports _ _ h
  · rw [if_neg hspec]
    exact nodup_foldl_addImports specs source st h

theorem nodup_parseStep (content : String) (st : TypescriptFileState) (b : BodyItem)
    (h : (importNames (st.imports.getD [])).Nodup) :
    (importNames ((parseStep content st b).imports.getD [])).Nodup := by
  cases b with
  | importDecl src specs r => exact nodup_parseImportDeclaration st src specs h
  | other r => simpa [parseStep] using h

theorem nodup_parseBody_fold (content : String) (body : List BodyItem) :
    ∀ st : TypescriptFileState, (importNames (st.imports.getD [])).Nodup →
    (importNames ((body.foldl (parseStep content) st).imports.getD [])).Nodup := by
  induction body with
  | nil =>
    intro st h
    simpa using h
  | cons b body ih =>
    intro st h
    simp only [List.foldl_cons]
    exact ih _ (nodup_parseStep content st b h)

theorem nodup_applyOps (ops : List RegistryOp) :
    ∀ st : TypescriptFileState, (importNames (st.imports.getD [])).Nodup →
    (importNames ((applyOps st ops).imports.getD [])).Nodup := by
  induction ops with
  | nil =>
    intro st h
    simpa using h
  | cons op ops ih =>
    intro st h
    simp only [applyOps, List.foldl_cons]
    apply ih
    cases op with
    | add items => exact nodup_addImports st items h
    | remove items => exact nodup_removeImports st items h

/-- C1: after parsing any body and then applying any sequence of add/remove
operations, the document's import collection holds at most one ImportStatement
per distinct packageName (its package-name list has no duplicate); since the
body and operation sequence are arbitrary, this covers every intermediate
point of the sequence, including the merges performed during parsing. -/
theorem c1_dedup_invariant (content : String) (body : List BodyItem)
    (ops : List RegistryOp) :
    (importNames ((applyOps (parseBody content body) ops).imports.getD [])).Nodup := by
  apply nodup_applyOps
  unfold parseBody
  apply nodup_parseBody_fold
  simp [initialState, importNames]

/-! ### Claim C8 -/

theorem declarations_parseImportDeclaration (st : TypescriptFileState) (source : String)
    (specs : List Specifier) :
    (parseImportDeclaration st source specs).declarations = st.declarations := by
  unfold parseImportDeclaration
  by_cases h : specs.isEmpty = true
  · rw [if_pos h]
    rfl
  · rw [if_neg h]
    clear h
    induction specs generalizing st with
    | nil => rfl
    | cons sp specs ih =>
      simp only [List.foldl_cons]
      rw [ih]
      rfl

theorem parseBody_declarations_fold (content : String) (body : List BodyItem) :
    ∀ (st : TypescriptFileState) (d : List String), st.declarations = some d →
    (body.foldl (parseStep content) st).declarations
      = some (d ++ (body.filter (fun b => !b.isImportDecl)).map
          (fun b => jsSubstr content b.range.1 (b.range.2 - b.range.1))) := by
  induction body with
  | nil =>
    intro st d h
    simpa using h
  | cons b body ih =>
    intro st d h
    cases b with
    | importDecl src specs r =>
      simp only [List.foldl_cons, parseStep]
      rw [ih _ d (by rw [declarations_parseImportDeclaration]; exact h)]
      rw [List.filter_cons_of_neg (by simp [BodyItem.isImportDecl])]
    | other r =>
      simp only [List.foldl_cons, parseStep]
      rw [ih _ (d ++ [jsSubstr content r.1 (r.2 - r.1)]) (by simp [h])]
      rw [List.filter_cons_of_pos (by simp [BodyItem.isImportDecl])]
      simp [BodyItem.range, List.append_assoc]

/-- C8: parsing appends to the body spans exactly the original-content
substring of each top-level non-import statement, in source order, and
no import declaration contributes a body span; body spans pass through the
add/remove/set mutations unchanged and are emitted verbatim, in recorded
order, by serialization. -/
theorem c8_body_spans (content : String) (body : List BodyItem) (st : TypescriptFileState)
    (adds removes addsI remsI : List TypescriptImport) :
    (parseBody content body).declarations
      = some ((body.filter (fun b => !b.isImportDecl)).map
          (fun b => jsSubstr content b.range.1 (b.range.2 - b.range.1)))
    ∧ (addImports st adds).declarations = st.declarations
    ∧ (removeImports st removes).declarations = st.declarations
    ∧ (setImports st addsI remsI).declarations = st.declarations
    ∧ getContent st
        = String.intercalate EOL (importLines st.imports ++ [""] ++ st.declarations.getD []) := by
  refine ⟨?_, rfl, rfl, rfl, rfl⟩
  unfold parseBody
  rw [parseBody_declarations_fold content body initialState [] rfl]
  simp

/-! ### Claim C9 -/

/-- C9: on syntactically invalid content with an in-range 1-based line number
in the diagnostic, the guarded parse fails with the documented ParseError
message, which carries the caller-supplied file path, the serialized
diagnostic, and the trimmed source line obtained by splitting the content on
line breaks and indexing with the line number. -/
theorem c9_parse_error_contents (file content : String) (err : Diagnostic) (n : Nat)
    (h1 : err.lineNumber = some n) (h2 : 1 ≤ n)
    (h3 : n ≤ (jsSplit '\n' content).length) :
    ∃ line, (jsSplit '\n' content).get? (n - 1) = some line
      ∧ parseTypescriptContent file content (.error err)
          = .parseError (parseErrorMessage file err.serialized line) := by
  cases hcase : (jsSplit '\n' content).get? (n - 1) with
  | none =>
    exfalso
    have hlen := List.get?_eq_none.mp hcase
    omega
  | some line =>
    refine ⟨line, rfl, ?_⟩
    unfold parseTypescriptContent
    dsimp only
    rw [h1]
    dsimp only
    rw [if_neg (by omega : ¬ n = 0)]
    rw [hcase]

/-- Witness for C9 at concrete inputs. -/
theorem c9_parse_error_contents_witness :
    ∃ line, (jsSplit '\n' "const x").get? 0 = some line
      ∧ parseTypescriptContent "a.ts" "const x" (.error ⟨some 1, "diag"⟩)
          = .parseError (parseErrorMessage "a.ts" "diag" line) :=
  c9_parse_error_contents "a.ts" "const x" ⟨some 1, "diag"⟩ 1 rfl (by decide) (by decide)

/-! ### Claim C10 -/

/-- C10: when the diagnostic's line number exceeds the number of lines of the
content, indexing the split content yields no line (JS `undefined`) and the
guarded parse raises the secondary error of calling trim on undefined instead
of the documented ParseError. -/
theorem c10_out_of_range_line (file content : String) (err : Diagnostic) (n : Nat)
    (h1 : err.lineNumber = some n) (h2 : (jsSplit '\n' content).length < n) :
    parseTypescriptContent file content (.error err) = .secondaryError := by
  unfold parseTypescriptContent
  dsimp only
  rw [h1]
  dsimp only
  rw [if_neg (by omega : ¬ n = 0)]
  rw [List.get?_eq_none.mpr (by omega : (jsSplit '\n' content).length ≤ n - 1)]

/-- Witness for C10 at concrete inputs. -/
theorem c10_out_of_range_line_witness :
    parseTypescriptContent "a.ts" "x" (.error ⟨some 3, "d"⟩) = ParseOutcome.secondaryError :=
  c10_out_of_range_line "a.ts" "x" ⟨some 3, "d"⟩ 3 rfl (by decide)

end ReactionableCli
